import Mathlib

/-!
Verification of the voice-sentiment-analysis repository.

This file shallowly embeds the original logic of the repository:
the word-stream normalizer and turn grouper, the transcript time
formatter and the defensive JSON recovery of `backend/main.py`, the
satisfaction classifier of `voice_sentiment.py`, and the batch loops of
`backend/main.py` and `api.py`.  Floating-point times and scores are
modelled as rationals; machine floats are exact on every input used
here.  Fallible parsing returns `Option`.
-/

/-! ### JSON values

Model of the Python `json` value universe as used by `json.loads`:
objects are key-value lists in insertion order (the repository never
feeds duplicate keys through the paths modelled here). -/

inductive Json where
  | null : Json
  | bool : Bool → Json
  | num : ℚ → Json
  | str : String → Json
  | arr : List Json → Json
  | obj : List (String × Json) → Json
  deriving Repr

/-! ### A small JSON parser, modelling `json.loads`

Recursive-descent parser over the character list with explicit fuel.
It follows the JSON grammar accepted by `json.loads`: surrounding
whitespace, objects, arrays, strings with the standard escapes,
numbers with optional sign, fraction and exponent, and the literals
`true`, `false`, `null`.  (The model accepts a slight superset of
numeric literals: it does not reject leading zeros, and it does not
reject unescaped control characters inside strings; no claim below
depends on those inputs.) -/

def isJsonWs (c : Char) : Bool :=
  c = ' ' || c = '\t' || c = '\n' || c = '\r'

def skipWs : List Char → List Char
  | [] => []
  | c :: cs => if isJsonWs c then skipWs cs else c :: cs

def hexVal (c : Char) : Option Nat :=
  if '0' ≤ c ∧ c ≤ '9' then some (c.toNat - 48)
  else if 'a' ≤ c ∧ c ≤ 'f' then some (c.toNat - 87)
  else if 'A' ≤ c ∧ c ≤ 'F' then some (c.toNat - 55)
  else none

def parseStringAux : Nat → List Char → List Char → Option (String × List Char)
  | 0, _, _ => none
  | fuel + 1, acc, cs =>
    match cs with
    | [] => none
    | c :: rest =>
      if c = '"' then some (String.mk acc.reverse, rest)
      else if c = '\\' then
        match rest with
        | [] => none
        | e :: rest2 =>
          if e = '"' then parseStringAux fuel ('"' :: acc) rest2
          else if e = '\\' then parseStringAux fuel ('\\' :: acc) rest2
          else if e = '/' then parseStringAux fuel ('/' :: acc) rest2
          else if e = 'b' then parseStringAux fuel (Char.ofNat 8 :: acc) rest2
          else if e = 'f' then parseStringAux fuel (Char.ofNat 12 :: acc) rest2
          else if e = 'n' then parseStringAux fuel ('\n' :: acc) rest2
          else if e = 'r' then parseStringAux fuel ('\r' :: acc) rest2
          else if e = 't' then parseStringAux fuel ('\t' :: acc) rest2
          else if e = 'u' then
            match rest2 with
            | h1 :: h2 :: h3 :: h4 :: rest3 =>
              match hexVal h1, hexVal h2, hexVal h3, hexVal h4 with
              | some a, some b, some c2, some d =>
                parseStringAux fuel (Char.ofNat (((a * 16 + b) * 16 + c2) * 16 + d) :: acc) rest3
              | _, _, _, _ => none
            | _ => none
          else none
      else parseStringAux fuel (c :: acc) rest

def digitsToNat (ds : List Char) : Nat :=
  ds.foldl (fun n c => n * 10 + (c.toNat - 48)) 0

def parseFrac (cs : List Char) : Option (ℚ × List Char) :=
  let fs := cs.takeWhile Char.isDigit
  if fs.isEmpty then none
  else some ((digitsToNat fs : ℚ) / (10 : ℚ) ^ fs.length, cs.drop fs.length)

def parseExp (cs : List Char) : Option (ℤ × List Char) :=
  let p : ℤ × List Char :=
    match cs with
    | c :: rest => if c = '+' then (1, rest) else if c = '-' then (-1, rest) else (1, cs)
    | [] => (1, cs)
  let ds := p.2.takeWhile Char.isDigit
  if ds.isEmpty then none
  else some (p.1 * (digitsToNat ds : ℤ), p.2.drop ds.length)

def parseNumber (cs : List Char) : Option (Json × List Char) :=
  let p : Bool × List Char :=
    match cs with
    | c :: rest => if c = '-' then (true, rest) else (false, cs)
    | [] => (false, cs)
  let ds := p.2.takeWhile Char.isDigit
  if ds.isEmpty then none
  else
    let ip : ℚ := (digitsToNat ds : ℚ)
    let cs2 := p.2.drop ds.length
    let fr : Option (ℚ × List Char) :=
      match cs2 with
      | c :: rest => if c = '.' then parseFrac rest else some (0, cs2)
      | [] => some (0, cs2)
    match fr with
    | none => none
    | some (f, cs3) =>
      let ex : Option (ℤ × List Char) :=
        match cs3 with
        | c :: rest => if c = 'e' ∨ c = 'E' then parseExp rest else some (0, cs3)
        | [] => some (0, cs3)
      match ex with
      | none => none
      | some (e, cs4) =>
        let mag : ℚ := (ip + f) * (10 : ℚ) ^ e
        some (Json.num (if p.1 then -mag else mag), cs4)

def startsWithLit : List Char → List Char → Bool
  | [], _ => true
  | c :: cs, d :: ds => c = d && startsWithLit cs ds
  | _ :: _, [] => false

/-- Parsing mode: a single value, the items of an array after at least
one item is required, or the members of an object after at least one
member is required. -/
inductive ParseMode where
  | value : ParseMode
  | arrItems : List Json → ParseMode
  | objItems : List (String × Json) → ParseMode

def parseF : Nat → ParseMode → List Char → Option (Json × List Char)
  | 0, _, _ => none
  | fuel + 1, ParseMode.value, cs0 =>
    let cs := skipWs cs0
    match cs with
    | [] => none
    | c :: rest =>
      if c = '\x7b' then
        match skipWs rest with
        | c2 :: rest2 =>
          if c2 = '\x7d' then some (Json.obj [], rest2)
          else parseF fuel (ParseMode.objItems []) rest
        | [] => none
      else if c = '[' then
        match skipWs rest with
        | c2 :: rest2 =>
          if c2 = ']' then some (Json.arr [], rest2)
          else parseF fuel (ParseMode.arrItems []) rest
        | [] => none
      else if c = '"' then
        match parseStringAux (rest.length + 1) [] rest with
        | some (s, r) => some (Json.str s, r)
        | none => none
      else if startsWithLit ['t', 'r', 'u', 'e'] cs then some (Json.bool true, cs.drop 4)
      else if startsWithLit ['f', 'a', 'l', 's', 'e'] cs then some (Json.bool false, cs.drop 5)
      else if startsWithLit ['n', 'u', 'l', 'l'] cs then some (Json.null, cs.drop 4)
      else if c = '-' ∨ c.isDigit then parseNumber cs
      else none
  | fuel + 1, ParseMode.arrItems acc, cs =>
    match parseF fuel ParseMode.value cs with
    | none => none
    | some (v, r) =>
      match skipWs r with
      | c :: rest =>
        if c = ',' then parseF fuel (ParseMode.arrItems (acc ++ [v])) rest
        else if c = ']' then some (Json.arr (acc ++ [v]), rest)
        else none
      | [] => none
  | fuel + 1, ParseMode.objItems acc, cs0 =>
    match skipWs cs0 with
    | c :: rest =>
      if c = '"' then
        match parseStringAux (rest.length + 1) [] rest with
        | some (k, r) =>
          match skipWs r with
          | c2 :: rest2 =>
            if c2 = ':' then
              match parseF fuel ParseMode.value rest2 with
              | some (v, r2) =>
                match skipWs r2 with
                | c3 :: rest3 =>
                  if c3 = ',' then parseF fuel (ParseMode.objItems (acc ++ [(k, v)])) rest3
                  else if c3 = '\x7d' then some (Json.obj (acc ++ [(k, v)]), rest3)
                  else none
                | [] => none
              | none => none
            else none
          | [] => none
        | none => none
      else none
    | [] => none

/-- Model of Python `json.loads`: parse one value, then require that only
whitespace remains; any failure raises, modelled as `none`. -/
def json_loads (s : String) : Option Json :=
  let cs := s.data
  match parseF ((cs.length + 2) * (cs.length + 2)) ParseMode.value cs with
  | some (v, r) => if (skipWs r).isEmpty then some v else none
  | none => none

/-! ### Word events and turn grouping (`backend/main.py`, `_group_into_turns`)

A raw word event from the transcription service.  Every field may be
absent; `type` distinguishes word events from audio-event tags.  The
Python dict key `end` is spelled `stop` here because `end` is a Lean
keyword. -/

structure WordEvent where
  type : Option String := none
  speaker_id : Option String := none
  start : Option ℚ := none
  stop : Option ℚ := none
  text : Option String := none
  deriving Repr, DecidableEq

/-- A speaker turn; also the shape of a single normalized word (the code
uses the same dict shape for the running `curr` accumulator). -/
structure Turn where
  speaker_id : String
  start : ℚ
  stop : ℚ
  text : String
  deriving Repr, DecidableEq

/-- Sort key of a word event, from
`wlist.sort(key=lambda w: (w.get("start", 0.0), w.get("end", 0.0)))`:
both components default to `0.0` when the field is missing. -/
def wkey (w : WordEvent) : ℚ × ℚ := (w.start.getD 0, w.stop.getD 0)

/-- Lexicographic order on sort keys, as Python compares tuples. -/
def keyLe (p q : ℚ × ℚ) : Prop := p.1 < q.1 ∨ (p.1 = q.1 ∧ p.2 ≤ q.2)

instance (p q : ℚ × ℚ) : Decidable (keyLe p q) := by
  unfold keyLe
  exact inferInstance

def wordLE (a b : WordEvent) : Prop := keyLe (wkey a) (wkey b)

instance : DecidableRel wordLE := fun a b => by
  unfold wordLE
  exact inferInstance

theorem keyLe_refl (p : ℚ × ℚ) : keyLe p p := Or.inr ⟨rfl, le_refl _⟩

theorem keyLe_total (p q : ℚ × ℚ) : keyLe p q ∨ keyLe q p := by
  rcases lt_trichotomy p.1 q.1 with h | h | h
  · exact Or.inl (Or.inl h)
  · rcases le_total p.2 q.2 with h2 | h2
    · exact Or.inl (Or.inr ⟨h, h2⟩)
    · exact Or.inr (Or.inr ⟨h.symm, h2⟩)
  · exact Or.inr (Or.inl h)

theorem keyLe_trans {p q r : ℚ × ℚ} (h1 : keyLe p q) (h2 : keyLe q r) : keyLe p r := by
  rcases h1 with h1 | ⟨h1, h1b⟩ <;> rcases h2 with h2 | ⟨h2, h2b⟩
  · exact Or.inl (h1.trans h2)
  · exact Or.inl (h2 ▸ h1)
  · exact Or.inl (h1 ▸ h2)
  · exact Or.inr ⟨h1.trans h2, h1b.trans h2b⟩

instance : IsTotal WordEvent wordLE := ⟨fun a b => keyLe_total (wkey a) (wkey b)⟩

instance : IsTrans WordEvent wordLE := ⟨fun _ _ _ => keyLe_trans⟩

instance : IsRefl WordEvent wordLE := ⟨fun a => keyLe_refl (wkey a)⟩

/-- The filter `[w for w in words if w.get("type") in (None, "word")]`. -/
def filterWords (ws : List WordEvent) : List WordEvent :=
  ws.filter (fun w => decide (w.type = none ∨ w.type = some "word"))

/-- `wlist.sort(key=...)`: Python list sort is a stable sort ascending by
the key; modelled by insertion sort, which is the stable sort for this
total preorder. -/
def sortWords (ws : List WordEvent) : List WordEvent :=
  List.insertionSort wordLE ws

/-- Python `w.get("speaker_id") or "speaker_1"`: `or` also replaces an
empty (falsy) string by the sentinel. -/
def defaultSpeaker (s : Option String) : String :=
  match s with
  | none => "speaker_1"
  | some s => if s = "" then "speaker_1" else s

/-- Python `str.strip()`: remove leading and trailing whitespace.
(Defined over the character list so that it evaluates by kernel
reduction; the inputs used here contain only ASCII whitespace.) -/
def pyStrip (s : String) : String :=
  String.mk (((s.data.dropWhile Char.isWhitespace).reverse.dropWhile
    Char.isWhitespace).reverse)

/-- Per-word normalization done in the loop body:
speaker default, `start = float(w.get("start", 0.0))`,
`end = float(w.get("end", start))`, `txt = str(w.get("text", "")).strip()`. -/
def normWord (w : WordEvent) : Turn :=
  let start := w.start.getD 0
  { speaker_id := defaultSpeaker w.speaker_id
    start := start
    stop := w.stop.getD start
    text := pyStrip (w.text.getD "") }

structure GroupState where
  turns : List Turn
  speakers : List String
  curr : Option Turn
  duration : ℚ
  deriving Repr, DecidableEq

/-- `if spk not in speakers_order: speakers_order.append(spk)`. -/
def updateSpeakers (ss : List String) (s : String) : List String :=
  if s ∈ ss then ss else ss ++ [s]

/-- One iteration of the `for w in wlist` loop of `_group_into_turns`. -/
def groupStep (st : GroupState) (w : WordEvent) : GroupState :=
  let n := normWord w
  let sp := updateSpeakers st.speakers n.speaker_id
  if n.text = "" then
    { st with speakers := sp, duration := max st.duration n.stop }
  else
    match st.curr with
    | none =>
      { st with speakers := sp, curr := some n, duration := max st.duration n.stop }
    | some c =>
      if n.speaker_id = c.speaker_id then
        { st with speakers := sp,
                  curr := some { speaker_id := c.speaker_id, start := c.start,
                                 stop := n.stop, text := c.text ++ " " ++ n.text },
                  duration := max st.duration n.stop }
      else
        { st with speakers := sp, turns := st.turns ++ [c], curr := some n,
                  duration := max st.duration n.stop }

structure GroupResult where
  turns : List Turn
  speakers : List String
  duration : ℚ
  deriving Repr, DecidableEq

/-- `_group_into_turns`: filter word-type events, stable-sort by
`(start, end)` with both defaults `0.0`, fold the loop body over the
sorted list, and flush the trailing open turn. -/
def group_into_turns (ws : List WordEvent) : GroupResult :=
  let wlist := sortWords (filterWords ws)
  let st := wlist.foldl groupStep ⟨[], [], none, 0⟩
  { turns := st.turns ++ (match st.curr with | none => [] | some c => [c])
    speakers := st.speakers
    duration := st.duration }

/-- The normalized word sequence exactly as the grouper loop consumes it
(lines 75-82 of `backend/main.py`): filter, stable-sort by the code key,
then apply the per-word defaults. -/
def wordsPipelineCode (ws : List WordEvent) : List Turn :=
  (sortWords (filterWords ws)).map normWord

def turnKeyLE (a b : Turn) : Prop := keyLe (a.start, a.stop) (b.start, b.stop)

instance : DecidableRel turnKeyLE := fun a b => by
  unfold turnKeyLE
  exact inferInstance

/-- Modelled from the spec (section 4.1, Word Stream Normalizer), for
comparison with the code order: apply the defaults first (missing `end`
defaults to `start`) and then stable-sort the defaulted events ascending
by `(start, end)`. -/
def wordsNormalizedSpec (ws : List WordEvent) : List Turn :=
  List.insertionSort turnKeyLE ((filterWords ws).map normWord)

/-! ### Timestamp formatting (`backend/main.py`, `_format_hhmmss`) -/

/-- Python `int(x)` on a rational: truncation toward zero. -/
def pyInt (q : ℚ) : ℤ := if 0 ≤ q then ⌊q⌋ else ⌈q⌉

/-- Python `round(x)` to an integer: nearest, ties to even. -/
def pyRound (q : ℚ) : ℤ :=
  let f := ⌊q⌋
  let frac := q - (f : ℚ)
  if frac < 1/2 then f
  else if 1/2 < frac then f + 1
  else if f % 2 = 0 then f else f + 1

/-- Decimal digits of `n`, most significant first, via explicit fuel so
that the definition evaluates by kernel reduction. -/
def natDigitsAux : Nat → Nat → List Char
  | 0, _ => []
  | fuel + 1, n =>
    if n = 0 then []
    else natDigitsAux fuel (n / 10) ++ [Char.ofNat (48 + n % 10)]

/-- Decimal rendering of a natural number. -/
def natStr (n : Nat) : String :=
  if n = 0 then "0" else String.mk (natDigitsAux (n + 1) n)

/-- Python `"{:0Nd}".format` for a natural number: left-pad with zeros
to the requested width. -/
def padNat (width : Nat) (n : Nat) : String :=
  let s := natStr n
  if s.length < width then String.mk (List.replicate (width - s.length) '0') ++ s else s

/-- Python `"{:0Nd}".format` for an integer: the sign counts toward the
width and the zeros are inserted after it. -/
def padInt (width : Nat) (i : ℤ) : String :=
  if i < 0 then "-" ++ padNat (width - 1) (-i).toNat else padNat width i.toNat

/-- `_format_hhmmss`: `None` short-circuits to `"00:00:00"`; otherwise
`ms = int(round((seconds - int(seconds)) * 1000))`, `s = int(seconds)`,
and the pieces are rendered as `{h:02d}:{m:02d}:{sec:02d}.{ms:03d}`
with Python floor division and modulo. -/
def format_hhmmss (seconds : Option ℚ) : String :=
  match seconds with
  | none => "00:00:00"
  | some q =>
    let ms := pyRound ((q - (pyInt q : ℚ)) * 1000)
    let s := pyInt q
    let h := Int.fdiv s 3600
    let m := Int.fdiv (Int.fmod s 3600) 60
    let sec := Int.fmod s 60
    padInt 2 h ++ ":" ++ padInt 2 m ++ ":" ++ padInt 2 sec ++ "." ++ padInt 3 ms

/-- The substring after the last `.` of a string (used to inspect the
millisecond field of a rendered timestamp). -/
def firstIdxAux (c : Char) : List Char → Nat → Option Nat
  | [], _ => none
  | d :: ds, i => if d = c then some i else firstIdxAux c ds (i + 1)

/-- Python `str.find`: index of the first occurrence, as an `Option`
instead of `-1`. -/
def firstIdx (cs : List Char) (c : Char) : Option Nat := firstIdxAux c cs 0

/-- Python `str.rfind`: index of the last occurrence, as an `Option`
instead of `-1`. -/
def lastIdx (cs : List Char) (c : Char) : Option Nat :=
  match firstIdx cs.reverse c with
  | none => none
  | some i => some (cs.length - 1 - i)

def dotSuffix (s : String) : String :=
  match lastIdx s.data '.' with
  | some i => String.mk (s.data.drop (i + 1))
  | none => ""

/-! ### JSON recovery (`backend/main.py`, `_safe_parse_json`) -/

/-- The brace-extraction substring of strategy (2):
`start = text.find("\x7b")`, `end = text.rfind("\x7d")`, and the slice
`text[start : end + 1]` provided both were found and `end > start`. -/
def braceSubstring (t : String) : Option String :=
  match firstIdx t.data '\x7b', lastIdx t.data '\x7d' with
  | some s, some e =>
    if s < e then some (String.mk ((t.data.drop s).take (e + 1 - s))) else none
  | _, _ => none

/-- `_safe_parse_json`: direct parse, then brace-extraction parse, then
the non-failing `{"raw_response": text}` fallback. -/
def safe_parse_json (text : String) : Json :=
  match json_loads text with
  | some v => v
  | none =>
    match braceSubstring text with
    | some u =>
      match json_loads u with
      | some v => v
      | none => Json.obj [("raw_response", Json.str text)]
    | none => Json.obj [("raw_response", Json.str text)]

/-! ### Post-processing of the parsed analysis
(`backend/main.py`, lines 351-359 of `analyze_audio`) -/

def objRemoveKey (k : String) (kvs : List (String × Json)) : List (String × Json) :=
  kvs.filter (fun p => !(p.1 = k))

def objHasKey (k : String) (kvs : List (String × Json)) : Bool :=
  kvs.any (fun p => p.1 = k)

/-- `if isinstance(sentiment_data, dict): pop the deprecated keys and
setdefault the sentiment_analysis sentence`; non-dict values pass
through untouched. -/
def postProcess (j : Json) : Json :=
  match j with
  | Json.obj kvs =>
    let kvs := objRemoveKey "per_turn" kvs
    let kvs := objRemoveKey "compliance_flags" kvs
    let kvs := objRemoveKey "escalation_risk" kvs
    let kvs := objRemoveKey "escalation_reason" kvs
    let kvs :=
      if objHasKey "sentiment_analysis" kvs then kvs
      else kvs ++ [("sentiment_analysis",
        Json.str "Critical-thinking analysis on the transcription covering tone, intent, evidence, and context.")]
    Json.obj kvs
  | v => v

/-! ### Satisfaction classifier
(`voice_sentiment.py`, `VoiceSentimentAnalyzer.classify_satisfaction`) -/

def classify_satisfaction (sentiment : String) (score : ℚ) : String :=
  if sentiment = "POSITIVE" ∧ score > 7/10 then "Satisfied"
  else if sentiment = "NEGATIVE" ∧ score > 7/10 then "Dissatisfied"
  else "Neutral"

/-! ### Batch processing

The per-file work (upload read, transcription call, generation call,
parsing) is abstracted into an oracle `proc : String → Except String Json`
mapping a filename to either an analysis value or the detail string of
the exception/HTTP error raised while processing that file.  What is
modelled is the control flow of the two batch loops. -/

/-- One entry of the backend `results` list: a successful per-file
result or an error entry tagged with the filename and the error detail
(metadata fields such as date and time are not modelled). -/
inductive BatchEntry where
  | ok : String → Json → BatchEntry
  | err : String → String → BatchEntry
  deriving Repr

/-- The per-file loop of `analyze_audio` in `backend/main.py`: files with
a falsy filename are skipped; any exception while processing one file is
caught and appended as an error entry, and the loop continues. -/
def analyze_audio_results (proc : String → Except String Json) :
    List String → List BatchEntry
  | [] => []
  | f :: fs =>
    if f = "" then analyze_audio_results proc fs
    else
      match proc f with
      | Except.ok j => BatchEntry.ok f j :: analyze_audio_results proc fs
      | Except.error e => BatchEntry.err f e :: analyze_audio_results proc fs

/-- Lower-casing over the character list (Python `str.lower`, ASCII
range as used for file extensions). -/
def pyLower (s : String) : String := String.mk (s.data.map Char.toLower)

/-- `os.path.splitext(p)[1]`: the extension of the basename, beginning
at its last dot, where leading dots of the basename do not start an
extension. -/
def splitextExt (p : String) : String :=
  let base := (p.data.reverse.takeWhile (fun c => !(c = '/'))).reverse
  let lead := base.takeWhile (fun c => c = '.')
  let rest := base.drop lead.length
  match lastIdx rest '.' with
  | none => ""
  | some i => String.mk (rest.drop i)

def allowedExtensions : List String := [".wav", ".mp3", ".m4a", ".flac"]

/-- One entry of the `results` list of `analyze_batch` in `api.py`: a
successful per-file result, or the unsupported-format error entry.  (No
constructor exists for an analysis failure: the code has no per-file
handler for it.) -/
inductive ApiEntry where
  | ok : String → Json → ApiEntry
  | badFormat : String → String → ApiEntry
  deriving Repr

/-- The per-file loop of `analyze_batch` in `api.py`: empty filenames are
skipped, unsupported extensions append an error entry and continue, and
an exception raised by the analysis of one file propagates out of the
loop, aborting the whole batch with a batch-level error (the route then
returns a 500 response with no results list). -/
def api_analyze_batch (proc : String → Except String Json) :
    List String → List ApiEntry → Except String (List ApiEntry)
  | [], results => Except.ok results
  | f :: fs, results =>
    if f = "" then api_analyze_batch proc fs results
    else
      let ext := pyLower (splitextExt f)
      if ext ∈ allowedExtensions then
        match proc f with
        | Except.ok d => api_analyze_batch proc fs (results ++ [ApiEntry.ok f d])
        | Except.error e => Except.error e
      else
        api_analyze_batch proc fs (results ++ [ApiEntry.badFormat f ext])

/-- A concrete per-file oracle under which the file `b.wav` fails with an
analysis exception and every other file succeeds. -/
def procOneBad : String → Except String Json :=
  fun f => if f = "b.wav" then Except.error "analysis failed" else Except.ok (Json.str "ok")


/-!
## Claim theorems
-/

unseal Rat.mul Rat.add Rat.sub Rat.inv in
/-- C2: the satisfaction classifier is a pure total function on
(sentiment, score): for every score it returns Satisfied iff
sentiment is POSITIVE and score > 0.7, Dissatisfied iff sentiment is
NEGATIVE and score > 0.7, and Neutral otherwise; score 0.70 with
sentiment POSITIVE classifies as Neutral (strict inequality) and
score 0.71 classifies as Satisfied. -/
theorem c2_classify_satisfaction (sentiment : String) (score : ℚ) :
    (classify_satisfaction sentiment score = "Satisfied" ↔
      sentiment = "POSITIVE" ∧ score > 7/10) ∧
    (classify_satisfaction sentiment score = "Dissatisfied" ↔
      sentiment = "NEGATIVE" ∧ score > 7/10) ∧
    (classify_satisfaction sentiment score = "Neutral" ↔
      ¬(sentiment = "POSITIVE" ∧ score > 7/10) ∧
      ¬(sentiment = "NEGATIVE" ∧ score > 7/10)) ∧
    classify_satisfaction "POSITIVE" (7/10) = "Neutral" ∧
    classify_satisfaction "POSITIVE" (71/100) = "Satisfied" := by
  refine ⟨?_, ?_, ?_, by decide, by decide⟩ <;>
  · unfold classify_satisfaction
    split_ifs with h1 h2 <;> simp_all

/-- C8 counterexample: a missing (None) duration renders as
`"00:00:00"`, not as `"00:00:00.000"` as the claim states. -/
theorem c8_counterexample :
    format_hhmmss none = "00:00:00" ∧ "00:00:00" ≠ "00:00:00.000" :=
  ⟨rfl, by decide⟩

/-- C8 (amended): when the duration given to the timestamp formatter is
missing/null (None), it renders exactly as `"00:00:00"`, with no
millisecond suffix. -/
theorem c8_none_renders_short : format_hhmmss none = "00:00:00" := rfl

unseal Rat.mul Rat.add Rat.sub Rat.inv in
/-- C3: JSON recovery attempts exactly three strategies in order, first
success winning: parse the whole text; on failure parse the substring
from the first opening brace to the last closing brace inclusive; on
failure return the raw_response wrapper without raising.  In particular
`"Sure! \x7b\"a\":1\x7d thanks"` recovers the object and
`"no json here"` yields the raw_response wrapper. -/
theorem c3_json_recovery (t : String) :
    (∀ v, json_loads t = some v → safe_parse_json t = v) ∧
    (∀ u v, json_loads t = none → braceSubstring t = some u → json_loads u = some v →
      safe_parse_json t = v) ∧
    (json_loads t = none → (∀ u, braceSubstring t = some u → json_loads u = none) →
      safe_parse_json t = Json.obj [("raw_response", Json.str t)]) ∧
    safe_parse_json "Sure! \x7b\"a\":1\x7d thanks" = Json.obj [("a", Json.num 1)] ∧
    safe_parse_json "no json here" = Json.obj [("raw_response", Json.str "no json here")] := by
  refine ⟨?_, ?_, ?_, by rfl, by rfl⟩
  · intro v h
    unfold safe_parse_json
    rw [h]
  · intro u v h1 h2 h3
    unfold safe_parse_json
    rw [h1, h2]
    dsimp only
    rw [h3]
  · intro h1 h2
    unfold safe_parse_json
    rw [h1]
    cases hbs : braceSubstring t with
    | none => rfl
    | some u =>
      dsimp only
      rw [h2 u hbs]

unseal Rat.mul Rat.add Rat.sub Rat.inv in
/-- Witness for C3: each of the three strategies discharged at a
concrete input. -/
theorem c3_json_recovery_witness :
    safe_parse_json "\x7b\"k\":true\x7d" = Json.obj [("k", Json.bool true)] ∧
    safe_parse_json "xx \x7b\"k\":true\x7d yy" = Json.obj [("k", Json.bool true)] ∧
    safe_parse_json "zzz" = Json.obj [("raw_response", Json.str "zzz")] := by
  refine ⟨(c3_json_recovery _).1 _ (by rfl),
          (c3_json_recovery _).2.1 "\x7b\"k\":true\x7d" _ (by rfl) (by rfl) (by rfl),
          (c3_json_recovery _).2.2.1 (by rfl) ?_⟩
  intro u hu
  rw [show braceSubstring "zzz" = none from rfl] at hu
  cases hu

unseal Rat.mul Rat.add Rat.sub Rat.inv in
/-- C10: when the generation response parses as valid JSON that is not
an object, JSON recovery returns that non-dict value unchanged rather
than wrapping it in raw_response, and the post-processing of the
orchestrator leaves non-dict values untouched; e.g. a bare array. -/
theorem c10_nondict_passthrough :
    (∀ t v, json_loads t = some v → (∀ kvs, v ≠ Json.obj kvs) →
      safe_parse_json t = v ∧ postProcess v = v) ∧
    json_loads "[1, 2]" = some (Json.arr [Json.num 1, Json.num 2]) ∧
    safe_parse_json "[1, 2]" = Json.arr [Json.num 1, Json.num 2] ∧
    postProcess (Json.arr [Json.num 1, Json.num 2]) = Json.arr [Json.num 1, Json.num 2] := by
  refine ⟨?_, by rfl, by rfl, rfl⟩
  intro t v h hno
  constructor
  · unfold safe_parse_json
    rw [h]
  · cases v with
    | obj kvs => exact absurd rfl (hno kvs)
    | null => rfl
    | bool b => rfl
    | num q => rfl
    | str s => rfl
    | arr xs => rfl

unseal Rat.mul Rat.add Rat.sub Rat.inv in
/-- Witness for C10: the general part applied to the bare array input. -/
theorem c10_nondict_passthrough_witness :
    safe_parse_json "[1, 2]" = Json.arr [Json.num 1, Json.num 2] ∧
    postProcess (Json.arr [Json.num 1, Json.num 2]) = Json.arr [Json.num 1, Json.num 2] :=
  c10_nondict_passthrough.1 "[1, 2]" (Json.arr [Json.num 1, Json.num 2]) (by rfl)
    (fun kvs h => Json.noConfusion h)

unseal Rat.mul Rat.add Rat.sub Rat.inv in
/-- C6: a word whose trimmed text is empty skips accumulation (turns and
the current turn are unchanged) but still updates the running duration
to `max(duration, end)`; the concrete three-word input with an
empty-text middle word yields the single turn `(A, 0, 3, "hi there")`
with duration 3. -/
theorem c6_empty_text_words :
    (∀ st w, (normWord w).text = "" →
      (groupStep st w).turns = st.turns ∧
      (groupStep st w).curr = st.curr ∧
      (groupStep st w).duration = max st.duration (normWord w).stop) ∧
    group_into_turns
      [{ speaker_id := some "A", start := some 0, stop := some 1, text := some "hi" },
       { speaker_id := some "A", start := some 1, stop := some 2, text := some "" },
       { speaker_id := some "A", start := some 2, stop := some 3, text := some "there" }] =
    { turns := [{ speaker_id := "A", start := 0, stop := 3, text := "hi there" }]
      speakers := ["A"]
      duration := 3 } := by
  refine ⟨?_, by decide⟩
  intro st w h
  unfold groupStep
  simp [h]

unseal Rat.mul Rat.add Rat.sub Rat.inv in
/-- Witness for C6: the step part applied to a concrete state and a
whitespace-only word. -/
theorem c6_empty_text_words_witness :
    (groupStep { turns := [], speakers := ["A"],
                 curr := some { speaker_id := "A", start := 0, stop := 1, text := "hi" },
                 duration := 1 }
       { speaker_id := some "A", start := some 1, stop := some 2, text := some " " }).turns = [] ∧
    (groupStep { turns := [], speakers := ["A"],
                 curr := some { speaker_id := "A", start := 0, stop := 1, text := "hi" },
                 duration := 1 }
       { speaker_id := some "A", start := some 1, stop := some 2, text := some " " }).curr =
      some { speaker_id := "A", start := 0, stop := 1, text := "hi" } := by
  have h := (c6_empty_text_words.1
    { turns := [], speakers := ["A"],
      curr := some { speaker_id := "A", start := 0, stop := 1, text := "hi" }, duration := 1 }
    { speaker_id := some "A", start := some 1, stop := some 2, text := some " " } (by decide))
  exact ⟨h.1, h.2.1⟩

unseal Rat.mul Rat.add Rat.sub Rat.inv in
/-- C1: with an open current turn and a nonempty-text word, the grouper
extends the turn on the same speaker (setting the turn end to the word
end and appending a space plus the text) and closes the current turn
when the speaker changes; the three-word example yields the two turns
`(A, 0, 1, "hello there")` and `(B, 1, 1.5, "hi")`, speakers
`["A", "B"]` and duration 1.5. -/
theorem c1_turn_merge :
    (∀ st w c, st.curr = some c → (normWord w).text ≠ "" →
      ((normWord w).speaker_id = c.speaker_id →
        (groupStep st w).turns = st.turns ∧
        (groupStep st w).curr =
          some { speaker_id := c.speaker_id, start := c.start, stop := (normWord w).stop,
                 text := c.text ++ " " ++ (normWord w).text }) ∧
      ((normWord w).speaker_id ≠ c.speaker_id →
        (groupStep st w).turns = st.turns ++ [c] ∧
        (groupStep st w).curr = some (normWord w))) ∧
    group_into_turns
      [{ speaker_id := some "A", start := some 0, stop := some (1/2), text := some "hello" },
       { speaker_id := some "A", start := some (1/2), stop := some 1, text := some "there" },
       { speaker_id := some "B", start := some 1, stop := some (3/2), text := some "hi" }] =
    { turns := [{ speaker_id := "A", start := 0, stop := 1, text := "hello there" },
                { speaker_id := "B", start := 1, stop := 3/2, text := "hi" }]
      speakers := ["A", "B"]
      duration := 3/2 } := by
  refine ⟨?_, by decide⟩
  intro st w c hc ht
  constructor
  · intro hsp
    unfold groupStep
    simp only [hc, ht, if_neg, hsp, if_pos]
    exact ⟨rfl, rfl⟩
  · intro hsp
    unfold groupStep
    simp only [hc, ht, if_neg, hsp]
    exact ⟨rfl, rfl⟩

unseal Rat.mul Rat.add Rat.sub Rat.inv in
/-- Witness for C1: the merge and close branches discharged at concrete
states and words. -/
theorem c1_turn_merge_witness :
    (groupStep { turns := [], speakers := ["A"],
                 curr := some { speaker_id := "A", start := 0, stop := 1, text := "hi" },
                 duration := 1 }
       { speaker_id := some "A", start := some 1, stop := some 2, text := some "yes" }).curr =
      some { speaker_id := "A", start := 0, stop := 2, text := "hi yes" } ∧
    (groupStep { turns := [], speakers := ["A"],
                 curr := some { speaker_id := "A", start := 0, stop := 1, text := "hi" },
                 duration := 1 }
       { speaker_id := some "B", start := some 1, stop := some 2, text := some "no" }).turns =
      [{ speaker_id := "A", start := 0, stop := 1, text := "hi" }] := by
  have h1 := ((c1_turn_merge.1
    { turns := [], speakers := ["A"],
      curr := some { speaker_id := "A", start := 0, stop := 1, text := "hi" }, duration := 1 }
    { speaker_id := some "A", start := some 1, stop := some 2, text := some "yes" }
    { speaker_id := "A", start := 0, stop := 1, text := "hi" } rfl (by decide)).1 (by decide)).2
  have h2 := ((c1_turn_merge.1
    { turns := [], speakers := ["A"],
      curr := some { speaker_id := "A", start := 0, stop := 1, text := "hi" }, duration := 1 }
    { speaker_id := some "B", start := some 1, stop := some 2, text := some "no" }
    { speaker_id := "A", start := 0, stop := 1, text := "hi" } rfl (by decide)).2 (by decide)).1
  exact ⟨by rw [h1]; decide, by rw [h2]; decide⟩

/-! ### Lemmas about the two batch loops (for C9) -/

theorem analyze_audio_results_append (proc : String → Except String Json)
    (xs ys : List String) :
    analyze_audio_results proc (xs ++ ys) =
      analyze_audio_results proc xs ++ analyze_audio_results proc ys := by
  induction xs with
  | nil => rfl
  | cons f fs ih =>
    simp only [List.cons_append, analyze_audio_results]
    split
    · exact ih
    · cases proc f <;> simp [ih]

theorem api_analyze_batch_append (proc : String → Except String Json)
    (xs ys : List String) (acc : List ApiEntry) :
    api_analyze_batch proc (xs ++ ys) acc =
      match api_analyze_batch proc xs acc with
      | Except.ok r => api_analyze_batch proc ys r
      | Except.error e => Except.error e := by
  induction xs generalizing acc with
  | nil => rfl
  | cons f fs ih =>
    simp only [List.cons_append, api_analyze_batch]
    split
    · exact ih acc
    · by_cases hext : pyLower (splitextExt f) ∈ allowedExtensions
      · rw [if_pos hext, if_pos hext]
        cases proc f
        · rfl
        · exact ih _
      · rw [if_neg hext, if_neg hext]
        exact ih _

/-- C9 counterexample: under an oracle where only the middle file
`b.wav` raises during analysis, the local REST batch endpoint
(`api.py`, `analyze_batch`) returns a batch-level error and discards
the already-computed result of `a.wav` and the remaining file `c.wav`;
no error entry tagged with the filename is appended.  (The backend
loop in `backend/main.py`, for contrast, produces the three tagged
entries.) -/
theorem c9_counterexample :
    api_analyze_batch procOneBad ["a.wav", "b.wav", "c.wav"] [] =
      Except.error "analysis failed" ∧
    analyze_audio_results procOneBad ["a.wav", "b.wav", "c.wav"] =
      [BatchEntry.ok "a.wav" (Json.str "ok"),
       BatchEntry.err "b.wav" "analysis failed",
       BatchEntry.ok "c.wav" (Json.str "ok")] :=
  ⟨rfl, rfl⟩

/-- C9 (amended): in the cloud backend batch loop every per-file
failure appends an error entry tagged with the filename and the error
detail to the same results list as successful entries and processing
continues with the remaining files; in the local REST API batch loop
this holds only for unsupported-format failures, while an exception
during the analysis of one file aborts the entire batch with a
batch-level error. -/
theorem c9_per_file_failure_handling :
    (∀ (proc : String → Except String Json) (pre post : List String) (f : String) (e : String),
      f ≠ "" → proc f = Except.error e →
      analyze_audio_results proc (pre ++ f :: post) =
        analyze_audio_results proc pre ++
          BatchEntry.err f e :: analyze_audio_results proc post) ∧
    (∀ (proc : String → Except String Json) (pre post : List String) (f e : String)
        (r : List ApiEntry),
      api_analyze_batch proc pre [] = Except.ok r → f ≠ "" →
      pyLower (splitextExt f) ∈ allowedExtensions → proc f = Except.error e →
      api_analyze_batch proc (pre ++ f :: post) [] = Except.error e) ∧
    (∀ (proc : String → Except String Json) (pre post : List String) (f : String)
        (r : List ApiEntry),
      api_analyze_batch proc pre [] = Except.ok r → f ≠ "" →
      pyLower (splitextExt f) ∉ allowedExtensions →
      api_analyze_batch proc (pre ++ f :: post) [] =
        api_analyze_batch proc post (r ++ [ApiEntry.badFormat f (pyLower (splitextExt f))])) := by
  refine ⟨?_, ?_, ?_⟩
  · intro proc pre post f e hf he
    rw [analyze_audio_results_append]
    simp only [analyze_audio_results, if_neg hf, he]
  · intro proc pre post f e r hpre hf hext he
    rw [api_analyze_batch_append, hpre]
    simp only [api_analyze_batch, if_neg hf, if_pos hext, he]
  · intro proc pre post f r hpre hf hext
    rw [api_analyze_batch_append, hpre]
    simp only [api_analyze_batch, if_neg hf, if_neg hext]

/-- Witness for C9: the three parts applied to concrete file lists and
the concrete failing oracle. -/
theorem c9_per_file_failure_handling_witness :
    analyze_audio_results procOneBad (["a.wav"] ++ "b.wav" :: ["c.wav"]) =
      analyze_audio_results procOneBad ["a.wav"] ++
        BatchEntry.err "b.wav" "analysis failed" ::
          analyze_audio_results procOneBad ["c.wav"] ∧
    api_analyze_batch procOneBad (["a.wav"] ++ "b.wav" :: ["c.wav"]) [] =
      Except.error "analysis failed" ∧
    api_analyze_batch procOneBad (["a.wav"] ++ "b.txt" :: ["c.wav"]) [] =
      api_analyze_batch procOneBad ["c.wav"]
        ([ApiEntry.ok "a.wav" (Json.str "ok")] ++ [ApiEntry.badFormat "b.txt" ".txt"]) := by
  refine ⟨c9_per_file_failure_handling.1 procOneBad ["a.wav"] ["c.wav"] "b.wav"
            "analysis failed" (by decide) (by rfl),
          c9_per_file_failure_handling.2.1 procOneBad ["a.wav"] ["c.wav"] "b.wav"
            "analysis failed" [ApiEntry.ok "a.wav" (Json.str "ok")] (by rfl) (by decide)
            (by decide) (by rfl),
          ?_⟩
  have h := c9_per_file_failure_handling.2.2 procOneBad ["a.wav"] ["c.wav"] "b.txt"
    [ApiEntry.ok "a.wav" (Json.str "ok")] (by rfl) (by decide) (by decide)
  rw [h]
  rfl

/-! ### Stability of the word sort (for C4) -/

theorem filter_orderedInsert_key_eq (k : ℚ × ℚ) (x : WordEvent) (l : List WordEvent)
    (hx : wkey x = k) :
    (List.orderedInsert wordLE x l).filter (fun a => decide (wkey a = k)) =
      x :: l.filter (fun a => decide (wkey a = k)) := by
  induction l with
  | nil => simp [List.orderedInsert, hx]
  | cons y ys ih =>
    rw [List.orderedInsert]
    by_cases hr : wordLE x y
    · rw [if_pos hr]
      simp [List.filter_cons, hx]
    · rw [if_neg hr]
      have hy : ¬(wkey y = k) := by
        intro hk
        apply hr
        unfold wordLE
        rw [hx, hk]
        exact keyLe_refl k
      simp [List.filter_cons, hy, ih]

theorem filter_orderedInsert_key_ne (k : ℚ × ℚ) (x : WordEvent) (l : List WordEvent)
    (hx : ¬(wkey x = k)) :
    (List.orderedInsert wordLE x l).filter (fun a => decide (wkey a = k)) =
      l.filter (fun a => decide (wkey a = k)) := by
  induction l with
  | nil => simp [List.orderedInsert, hx]
  | cons y ys ih =>
    rw [List.orderedInsert]
    by_cases hr : wordLE x y
    · rw [if_pos hr]
      simp [List.filter_cons, hx]
    · rw [if_neg hr]
      by_cases hy : wkey y = k <;> simp [List.filter_cons, hy, ih]

/-- Stability of the stable sort, phrased through filters: for every sort
key, the subsequence of events having exactly that key is unchanged, so
events with identical `(start, end)` keys keep their original relative
order. -/
theorem insertionSort_filter_key (k : ℚ × ℚ) :
    ∀ ws : List WordEvent,
      (List.insertionSort wordLE ws).filter (fun a => decide (wkey a = k)) =
        ws.filter (fun a => decide (wkey a = k))
  | [] => rfl
  | x :: xs => by
    rw [List.insertionSort]
    by_cases hx : wkey x = k
    · rw [filter_orderedInsert_key_eq k x _ hx, insertionSort_filter_key k xs]
      simp [List.filter_cons, hx]
    · rw [filter_orderedInsert_key_ne k x _ hx, insertionSort_filter_key k xs]
      simp [List.filter_cons, hx]

unseal Rat.mul Rat.add Rat.sub Rat.inv in
/-- C4 counterexample: the normalizer does not default a missing `end`
before sorting.  For the two words `(A, start 1, end missing, "x")` and
`(B, start 1, end 0.5, "y")`, the code sorts with the missing `end`
counted as `0.0` and keeps `A` first, while defaulting `end` to `start`
before the stable sort (the claim as stated) would put `B` first; the
two orders differ. -/
theorem c4_counterexample :
    wordsPipelineCode
      [{ speaker_id := some "A", start := some 1, text := some "x" },
       { speaker_id := some "B", start := some 1, stop := some (1/2), text := some "y" }] =
      [{ speaker_id := "A", start := 1, stop := 1, text := "x" },
       { speaker_id := "B", start := 1, stop := 1/2, text := "y" }] ∧
    wordsNormalizedSpec
      [{ speaker_id := some "A", start := some 1, text := some "x" },
       { speaker_id := some "B", start := some 1, stop := some (1/2), text := some "y" }] =
      [{ speaker_id := "B", start := 1, stop := 1/2, text := "y" },
       { speaker_id := "A", start := 1, stop := 1, text := "x" }] ∧
    wordsPipelineCode
      [{ speaker_id := some "A", start := some 1, text := some "x" },
       { speaker_id := some "B", start := some 1, stop := some (1/2), text := some "y" }] ≠
    wordsNormalizedSpec
      [{ speaker_id := some "A", start := some 1, text := some "x" },
       { speaker_id := some "B", start := some 1, stop := some (1/2), text := some "y" }] := by
  refine ⟨by decide, by decide, by decide⟩

/-- C4 (amended): the normalizer discards events whose type field is
present and not equal to "word" (passing through events with no type)
and stable-sorts the remaining raw events ascending by the key
`(start, end)` in which a missing field counts as 0.0 — the sort runs
before any defaulting, so a missing `end` sorts as 0.0, not as the
word start; events with identical keys keep their original relative
order.  The per-word defaulting applied after the sort maps a missing
speakerId to the sentinel "speaker_1" and a missing `end` to the
word's (defaulted) start. -/
theorem c4_normalizer (ws : List WordEvent) :
    (∀ w, w ∈ filterWords ws ↔ w ∈ ws ∧ (w.type = none ∨ w.type = some "word")) ∧
    List.Sorted wordLE (sortWords (filterWords ws)) ∧
    (sortWords (filterWords ws)).Perm (filterWords ws) ∧
    (∀ k, (sortWords (filterWords ws)).filter (fun a => decide (wkey a = k)) =
      (filterWords ws).filter (fun a => decide (wkey a = k))) ∧
    wordsPipelineCode ws = (sortWords (filterWords ws)).map normWord ∧
    (∀ w : WordEvent, w.speaker_id = none → (normWord w).speaker_id = "speaker_1") ∧
    (∀ w : WordEvent, w.stop = none →
      (normWord w).stop = (normWord w).start ∧ (normWord w).start = w.start.getD 0) := by
  refine ⟨?_, ?_, ?_, ?_, rfl, ?_, ?_⟩
  · intro w
    simp [filterWords, List.mem_filter]
  · exact List.sorted_insertionSort wordLE _
  · exact List.perm_insertionSort wordLE _
  · intro k
    exact insertionSort_filter_key k _
  · intro w h
    simp [normWord, defaultSpeaker, h]
  · intro w h
    simp [normWord, h]

/-- Witness for C4: the parts with hypotheses discharged at concrete
events (a speaker-less word and an end-less word), and the membership
characterization applied to a concrete audio-event tag. -/
theorem c4_normalizer_witness :
    (normWord { start := some 2, text := some "x" }).speaker_id = "speaker_1" ∧
    (normWord { speaker_id := some "A", start := some 2, text := some "x" }).stop =
      (normWord { speaker_id := some "A", start := some 2, text := some "x" }).start ∧
    ¬({ type := some "audio_event", text := some "laughs" : WordEvent} ∈
      filterWords [{ type := some "audio_event", text := some "laughs" }]) := by
  refine ⟨(c4_normalizer []).2.2.2.2.2.1 _ rfl,
          ((c4_normalizer []).2.2.2.2.2.2 _ rfl).1,
          ?_⟩
  intro hmem
  have h := ((c4_normalizer [{ type := some "audio_event", text := some "laughs" }]).1 _).mp hmem
  rcases h.2 with h2 | h2
  · cases h2
  · simp at h2

/-! ### Length of the rendered fields (for C7) -/

theorem natDigitsAux_length_le :
    ∀ (fuel n w : Nat), n < 10 ^ w → (natDigitsAux fuel n).length ≤ w
  | 0, _, _, _ => by simp [natDigitsAux]
  | fuel + 1, n, w, h => by
    rw [natDigitsAux]
    by_cases hn : n = 0
    · simp [hn]
    · rw [if_neg hn]
      cases w with
      | zero => exact absurd (Nat.lt_one_iff.mp (by simpa using h)) hn
      | succ w2 =>
        have hd : n / 10 < 10 ^ w2 := by
          rw [Nat.div_lt_iff_lt_mul (by norm_num)]
          calc n < 10 ^ (w2 + 1) := h
            _ = 10 ^ w2 * 10 := by rw [pow_succ]
        have hih := natDigitsAux_length_le fuel (n / 10) w2 hd
        simp only [List.length_append, List.length_cons, List.length_nil]
        omega

theorem string_mk_length (cs : List Char) : (String.mk cs).length = cs.length := rfl

theorem natStr_length_le (n w : Nat) (hw : 1 ≤ w) (hn : n < 10 ^ w) :
    (natStr n).length ≤ w := by
  unfold natStr
  by_cases h0 : n = 0
  · rw [if_pos h0]
    have : ("0" : String).length = 1 := rfl
    omega
  · rw [if_neg h0, string_mk_length]
    exact natDigitsAux_length_le _ n w hn

theorem padNat_length (w n : Nat) (hw : 1 ≤ w) (hn : n < 10 ^ w) :
    (padNat w n).length = w := by
  have hs := natStr_length_le n w hw hn
  unfold padNat
  by_cases hlt : (natStr n).length < w
  · rw [if_pos hlt, String.length_append, string_mk_length, List.length_replicate]
    omega
  · rw [if_neg hlt]
    omega

theorem padInt_length (w : Nat) (i : ℤ) (h0 : 0 ≤ i) (hi : i.toNat < 10 ^ w)
    (hw : 1 ≤ w) : (padInt w i).length = w := by
  unfold padInt
  rw [if_neg (by omega)]
  exact padNat_length w i.toNat hw hi

theorem pyRound_nonneg (q : ℚ) (h : 0 ≤ q) : 0 ≤ pyRound q := by
  unfold pyRound
  have hf : 0 ≤ ⌊q⌋ := Int.floor_nonneg.mpr h
  dsimp only
  split_ifs <;> omega

unseal Rat.mul Rat.add Rat.sub Rat.inv in
/-- C7 counterexample: at 5.9996 seconds the fractional remainder rounds
to 1000 milliseconds and the formatter renders `"00:00:05.1000"`, whose
millisecond suffix has 4 digits, not 3 as the claim states for every
non-negative input. -/
theorem c7_counterexample :
    format_hhmmss (some (14999/2500)) = "00:00:05.1000" ∧
    (dotSuffix "00:00:05.1000").length = 4 ∧
    ¬((dotSuffix "00:00:05.1000").length = 3) := by
  refine ⟨by decide, by decide, by decide⟩

unseal Rat.mul Rat.add Rat.sub Rat.inv in
/-- C7 (amended): for every non-negative number of seconds whose
fractional remainder rounds to at most 999 milliseconds, the formatter
returns zero-padded hours:minutes:seconds followed by a 3-digit
millisecond suffix, computed by truncating whole seconds and rounding
the fractional remainder to the nearest millisecond (ties to even);
when the remainder rounds to 1000 the millisecond field is rendered
with 4 digits instead.  In particular 125.4 seconds formats as
`"00:02:05.400"`. -/
theorem c7_format_shape (q : ℚ) (h0 : 0 ≤ q)
    (hms : pyRound ((q - (pyInt q : ℚ)) * 1000) < 1000) :
    format_hhmmss (some q) =
      padInt 2 (Int.fdiv (pyInt q) 3600) ++ ":" ++
      padInt 2 (Int.fdiv (Int.fmod (pyInt q) 3600) 60) ++ ":" ++
      padInt 2 (Int.fmod (pyInt q) 60) ++ "." ++
      padInt 3 (pyRound ((q - (pyInt q : ℚ)) * 1000)) ∧
    (padInt 2 (Int.fdiv (Int.fmod (pyInt q) 3600) 60)).length = 2 ∧
    (padInt 2 (Int.fmod (pyInt q) 60)).length = 2 ∧
    (padInt 3 (pyRound ((q - (pyInt q : ℚ)) * 1000))).length = 3 ∧
    format_hhmmss (some (627/5)) = "00:02:05.400" := by
  have hs : 0 ≤ pyInt q := by
    unfold pyInt
    rw [if_pos h0]
    exact Int.floor_nonneg.mpr h0
  have hfrac : (0:ℚ) ≤ (q - (pyInt q : ℚ)) * 1000 := by
    apply mul_nonneg _ (by norm_num)
    unfold pyInt
    rw [if_pos h0]
    have := Int.floor_le q
    linarith
  have hmsn : 0 ≤ pyRound ((q - (pyInt q : ℚ)) * 1000) := pyRound_nonneg _ hfrac
  have hm : Int.fdiv (Int.fmod (pyInt q) 3600) 60 = (pyInt q % 3600) / 60 := by
    rw [Int.fmod_eq_emod _ (by norm_num), Int.fdiv_eq_ediv _ (by norm_num)]
  have hsec : Int.fmod (pyInt q) 60 = pyInt q % 60 := Int.fmod_eq_emod _ (by norm_num)
  refine ⟨rfl, ?_, ?_, ?_, by decide⟩
  · apply padInt_length 2 _ _ _ (by norm_num)
    · rw [hm]
      omega
    · rw [hm]
      have h1 : 0 ≤ pyInt q % 3600 := by omega
      have h2 : pyInt q % 3600 < 3600 := by omega
      have : (pyInt q % 3600) / 60 < 60 := by omega
      have h3 : 0 ≤ (pyInt q % 3600) / 60 := by omega
      simp only [pow_succ, pow_zero, one_mul]
      omega
  · apply padInt_length 2 _ _ _ (by norm_num)
    · rw [hsec]
      omega
    · rw [hsec]
      simp only [pow_succ, pow_zero, one_mul]
      omega
  · apply padInt_length 3 _ hmsn _ (by norm_num)
    simp only [pow_succ, pow_zero, one_mul]
    omega

unseal Rat.mul Rat.add Rat.sub Rat.inv in
/-- Witness for C7: the amended statement discharged at 125.4 seconds. -/
theorem c7_format_shape_witness :
    format_hhmmss (some (627/5)) = "00:02:05.400" ∧
    (padInt 3 (pyRound (((627/5 : ℚ) - (pyInt (627/5) : ℚ)) * 1000))).length = 3 :=
  ⟨(c7_format_shape (627/5) (by norm_num) (by decide)).2.2.2.2,
   (c7_format_shape (627/5) (by norm_num) (by decide)).2.2.2.1⟩

/-! ### Invariants of the turn grouper (for C5) -/

/-- The start times of all closed turns followed by the start of the
open turn, in output order. -/
def allStarts (st : GroupState) : List ℚ :=
  st.turns.map Turn.start ++ (match st.curr with | none => [] | some c => [c.start])

/-- Loop invariant of the grouper fold: closed and open turns satisfy
`start ≤ stop`, every recorded start is at most the start of every
remaining word, and the recorded starts are non-decreasing. -/
def GroupInv (st : GroupState) (rem : List WordEvent) : Prop :=
  (∀ t ∈ st.turns, t.start ≤ t.stop) ∧
  (∀ c, st.curr = some c → c.start ≤ c.stop) ∧
  (∀ x ∈ allStarts st, ∀ w ∈ rem, x ≤ (normWord w).start) ∧
  List.Pairwise (· ≤ ·) (allStarts st)

theorem wordLE_start {a b : WordEvent} (h : wordLE a b) :
    (normWord a).start ≤ (normWord b).start := by
  have ha : (normWord a).start = (wkey a).1 := rfl
  have hb : (normWord b).start = (wkey b).1 := rfl
  rw [ha, hb]
  rcases h with h | ⟨h, _⟩
  · exact le_of_lt h
  · exact le_of_eq h

theorem groupStep_inv (st : GroupState) (w : WordEvent) (rem : List WordEvent)
    (hw : (normWord w).start ≤ (normWord w).stop)
    (hsor : ∀ v ∈ rem, wordLE w v)
    (hinv : GroupInv st (w :: rem)) :
    GroupInv (groupStep st w) rem := by
  obtain ⟨h1, h2, h3, h4⟩ := hinv
  have hstart : ∀ x ∈ allStarts st, x ≤ (normWord w).start :=
    fun x hx => h3 x hx w (List.mem_cons_self _ _)
  have h3r : ∀ x ∈ allStarts st, ∀ v ∈ rem, x ≤ (normWord v).start :=
    fun x hx v hv => h3 x hx v (List.mem_cons_of_mem _ hv)
  have hnext : ∀ v ∈ rem, (normWord w).start ≤ (normWord v).start :=
    fun v hv => wordLE_start (hsor v hv)
  unfold groupStep
  by_cases he : (normWord w).text = ""
  · rw [if_pos he]
    exact ⟨h1, h2, h3r, h4⟩
  · rw [if_neg he]
    cases hc : st.curr with
    | none =>
      dsimp only
      refine ⟨h1, ?_, ?_, ?_⟩
      · intro c hcc
        cases hcc
        exact hw
      · intro x hx v hv
        rcases List.mem_append.mp hx with hx | hx
        · exact h3r x (by unfold allStarts; rw [hc]; simpa using hx) v hv
        · simp only [List.mem_singleton] at hx
          subst hx
          exact hnext v hv
      · unfold allStarts at h4 ⊢
        rw [hc] at h4
        simp only [List.append_nil] at h4
        refine List.pairwise_append.mpr ⟨h4, List.pairwise_singleton _ _, ?_⟩
        intro a ha b hb
        simp only [List.mem_singleton] at hb
        subst hb
        exact hstart a (by unfold allStarts; rw [hc]; simpa using ha)
    | some c =>
      dsimp only
      have hcs : c.start ∈ allStarts st := by
        unfold allStarts
        rw [hc]
        exact List.mem_append_right _ (List.mem_singleton.mpr rfl)
      by_cases hsp : (normWord w).speaker_id = c.speaker_id
      · rw [if_pos hsp]
        refine ⟨h1, ?_, ?_, ?_⟩
        · intro c2 hcc
          cases hcc
          exact le_trans (hstart c.start hcs) hw
        · intro x hx v hv
          refine h3r x ?_ v hv
          unfold allStarts at hx ⊢
          rw [hc]
          simpa using hx
        · unfold allStarts at h4 ⊢
          rw [hc] at h4
          simpa using h4
      · rw [if_neg hsp]
        unfold GroupInv
        dsimp only
        have hre : (st.turns ++ [c]).map Turn.start ++ [(normWord w).start] =
            allStarts st ++ [(normWord w).start] := by
          unfold allStarts
          rw [hc]
          simp
        refine ⟨?_, ?_, ?_, ?_⟩
        · intro t ht
          rcases List.mem_append.mp ht with ht | ht
          · exact h1 t ht
          · simp only [List.mem_singleton] at ht
            rw [ht]
            exact h2 c hc
        · intro c2 hcc
          cases hcc
          exact hw
        · intro x hx v hv
          unfold allStarts at hx
          dsimp only at hx
          rw [hre] at hx
          rcases List.mem_append.mp hx with hx | hx
          · exact h3r x hx v hv
          · simp only [List.mem_singleton] at hx
            subst hx
            exact hnext v hv
        · unfold allStarts
          dsimp only
          rw [hre]
          refine List.pairwise_append.mpr ⟨h4, List.pairwise_singleton _ _, ?_⟩
          intro a ha b hb
          simp only [List.mem_singleton] at hb
          subst hb
          exact hstart a ha
theorem foldl_groupStep_inv :
    ∀ (ws : List WordEvent) (st : GroupState),
      List.Pairwise wordLE ws →
      (∀ w ∈ ws, (normWord w).start ≤ (normWord w).stop) →
      GroupInv st ws →
      GroupInv (ws.foldl groupStep st) []
  | [], _, _, _, hinv => hinv
  | w :: ws, st, hp, hw, hinv => by
    rw [List.foldl_cons]
    have hp2 := List.pairwise_cons.mp hp
    exact foldl_groupStep_inv ws (groupStep st w) hp2.2
      (fun v hv => hw v (List.mem_cons_of_mem _ hv))
      (groupStep_inv st w ws (hw w (List.mem_cons_self _ _)) hp2.1 hinv)

unseal Rat.mul Rat.add Rat.sub Rat.inv in
/-- C5 counterexample: a single word whose end (0.5) precedes its start
(1) produces a turn with start > end, refuting the unconditional
`start ≤ end` invariant; and two well-formed words from different
speakers with nested time ranges produce overlapping turns, refuting
unconditional non-overlap. -/
theorem c5_counterexample :
    (group_into_turns
      [{ speaker_id := some "A", start := some 1, stop := some (1/2), text := some "x" }]).turns =
      [{ speaker_id := "A", start := 1, stop := 1/2, text := "x" }] ∧
    ¬((1:ℚ) ≤ 1/2) ∧
    (group_into_turns
      [{ speaker_id := some "A", start := some 0, stop := some 10, text := some "x" },
       { speaker_id := some "B", start := some 1, stop := some 2, text := some "y" }]).turns =
      [{ speaker_id := "A", start := 0, stop := 10, text := "x" },
       { speaker_id := "B", start := 1, stop := 2, text := "y" }] ∧
    (1:ℚ) < 10 := by
  refine ⟨by decide, by decide, by decide, by decide⟩

/-- C5 (amended): if every input word satisfies `start ≤ end` after
defaulting, then every output turn satisfies `start ≤ end`; and the
sequence of output turn start times is non-decreasing (turns appear in
the sorted order of their first words).  Output turns from different
speakers may still overlap in time. -/
theorem c5_turn_invariants (ws : List WordEvent)
    (hw : ∀ w ∈ ws, (normWord w).start ≤ (normWord w).stop) :
    (∀ t ∈ (group_into_turns ws).turns, t.start ≤ t.stop) ∧
    List.Pairwise (· ≤ ·) ((group_into_turns ws).turns.map Turn.start) := by
  have hsorted : List.Pairwise wordLE (sortWords (filterWords ws)) :=
    List.sorted_insertionSort wordLE (filterWords ws)
  have hw2 : ∀ w ∈ sortWords (filterWords ws),
      (normWord w).start ≤ (normWord w).stop := by
    intro w hmem
    have h1 : w ∈ filterWords ws :=
      (List.perm_insertionSort wordLE (filterWords ws)).mem_iff.mp hmem
    exact hw w (List.mem_filter.mp h1).1
  have hinv0 : GroupInv ⟨[], [], none, 0⟩ (sortWords (filterWords ws)) := by
    refine ⟨?_, ?_, ?_, ?_⟩
    · intro t ht
      cases ht
    · intro c hc
      cases hc
    · intro x hx
      simp [allStarts] at hx
    · simp [allStarts]
  have hfin := foldl_groupStep_inv (sortWords (filterWords ws)) ⟨[], [], none, 0⟩
    hsorted hw2 hinv0
  obtain ⟨f1, f2, _, f4⟩ := hfin
  have hmap : (group_into_turns ws).turns =
      ((sortWords (filterWords ws)).foldl groupStep ⟨[], [], none, 0⟩).turns ++
      (match ((sortWords (filterWords ws)).foldl groupStep ⟨[], [], none, 0⟩).curr with
       | none => [] | some c => [c]) := rfl
  constructor
  · intro t ht
    rw [hmap] at ht
    rcases List.mem_append.mp ht with h | h
    · exact f1 t h
    · cases hcur : ((sortWords (filterWords ws)).foldl groupStep ⟨[], [], none, 0⟩).curr with
      | none =>
        rw [hcur] at h
        cases h
      | some c =>
        rw [hcur] at h
        simp only [List.mem_singleton] at h
        rw [h]
        exact f2 c hcur
  · rw [hmap, List.map_append]
    unfold allStarts at f4
    cases hcur : ((sortWords (filterWords ws)).foldl groupStep ⟨[], [], none, 0⟩).curr with
    | none =>
      rw [hcur] at f4
      simpa using f4
    | some c =>
      rw [hcur] at f4
      simpa using f4

unseal Rat.mul Rat.add Rat.sub Rat.inv in
/-- Witness for C5: the amended invariants discharged at a concrete
two-speaker input whose words all satisfy `start ≤ end`. -/
theorem c5_turn_invariants_witness :
    (({ speaker_id := "A", start := 0, stop := 1, text := "hi" } : Turn).start ≤
      ({ speaker_id := "A", start := 0, stop := 1, text := "hi" } : Turn).stop) ∧
    List.Pairwise (· ≤ ·)
      ((group_into_turns
        [{ speaker_id := some "A", start := some 0, stop := some 1, text := some "hi" },
         { speaker_id := some "B", start := some 1, stop := some 2, text := some "yo" }]).turns.map
        Turn.start) :=
  ⟨(c5_turn_invariants
      [{ speaker_id := some "A", start := some 0, stop := some 1, text := some "hi" },
       { speaker_id := some "B", start := some 1, stop := some 2, text := some "yo" }]
      (by decide)).1
    { speaker_id := "A", start := 0, stop := 1, text := "hi" } (by decide),
   (c5_turn_invariants
      [{ speaker_id := some "A", start := some 0, stop := some 1, text := some "hi" },
       { speaker_id := some "B", start := some 1, stop := some 2, text := some "yo" }]
      (by decide)).2⟩
